import Mathlib

/-!
Verification development for the Unity test-explorer adapter
(`src/adapter.ts`).  The adapter's pure logic (regex-based result parsing,
suite-tree search, run orchestration, label prettification, line-number
computation) is embedded shallowly below; external collaborators
(`child_process`, `fs`, the `path` module, the VS Code UI) are modelled as
explicit parameters or as emitted events, exactly at the boundary at which
the adapter observes them.
-/

set_option maxHeartbeats 1000000

namespace UnityAdapter

/-- Characters the JavaScript regex token `.` matches (without the `s`
flag): anything but a line terminator. -/
def notNl (c : Char) : Bool := (c != '\n') && (c != '\r')

/-- JavaScript `\s` (whitespace class), restricted to the ASCII
whitespace characters that can occur in C source files. -/
def isWS (c : Char) : Bool :=
  (c == ' ') || (c == '\t') || (c == '\n') || (c == '\r') ||
  (c == '\x0b') || (c == '\x0c')

/-- `dropPre? p s` returns `some r` with `s = p ++ r` when the pattern `p`
literally heads the list `s`, and `none` otherwise. -/
def dropPre? : List Char → List Char → Option (List Char)
  | [], s => some s
  | _ :: _, [] => none
  | p :: ps, c :: cs => if p = c then dropPre? ps cs else none

/-- Backtracking combinator: try `f k`, `f (k-1)`, …, `f 0` and return the
first success.  Used to model a greedy `.*` that backs off. -/
def tryDown (f : Nat → Option α) : Nat → Option α
  | 0 => f 0
  | k + 1 =>
    match f (k + 1) with
    | some r => some r
    | none => tryDown f k

/-- Outcome of the trailing alternation `(PASS|(FAIL: (.*)))` of the
adapter's `testResultString` pattern: group 2 equals `"PASS"`, or group 4
holds the failure message. -/
inductive PF where
  | pass
  | fail (msg : List Char)
deriving DecidableEq

/-- Match the tail `<label>:(PASS|(FAIL: (.*)))` of the result pattern
against a suffix of the runner output.  The alternation tries `PASS`
first, as JavaScript alternation does; the inner `(.*)` is greedy and
cannot cross a line terminator, so the captured message is the maximal
run of non-newline characters. -/
def matchTail (label : List Char) (s : List Char) : Option PF :=
  match dropPre? (label ++ [':']) s with
  | none => none
  | some r =>
    match dropPre? "PASS".data r with
    | some _ => some PF.pass
    | none =>
      match dropPre? "FAIL: ".data r with
      | some m => some (PF.fail (m.takeWhile notNl))
      | none => none

/-- The `.*` gap between `:<line>:` and the test label, greedy with
backtracking: the longest admissible gap (a run of non-newline
characters) is tried first. -/
def tryGaps (label s : List Char) : Nat → Option PF :=
  tryDown (fun k => matchTail label (s.drop k))

def isDigit (c : Char) : Bool := ('0' ≤ c) && (c ≤ '9')

/-- Attempt to match `:([0-9]+):.*<label>:(PASS|(FAIL: (.*)))` at the head
of `s`.  `[0-9]+` is greedy and must be followed by `:`; backing off the
digit run can never help because the next character would again be a
digit, so taking the maximal run is faithful. -/
def matchAt (label : List Char) : List Char → Option (List Char × PF)
  | ':' :: rest =>
    let ds := rest.takeWhile isDigit
    if ds.isEmpty then none
    else
      match rest.drop ds.length with
      | ':' :: rest2 =>
        match tryGaps label rest2 (rest2.takeWhile notNl).length with
        | some pf => some (ds, pf)
        | none => none
      | _ => none
  | _ => none

/-- `RegExp.exec`: scan start positions left to right and return the
first position at which the result pattern matches, together with the
captured line-number digits and pass/fail outcome. -/
def regexExec (label : List Char) : List Char → Option (List Char × PF)
  | [] => none
  | c :: t =>
    match matchAt label (c :: t) with
    | some r => some r
    | none => regexExec label t

/-- JavaScript `parseInt` on a non-empty digit string. -/
def parseIntDigits (ds : List Char) : Nat :=
  ds.foldl (fun a c => a * 10 + (c.toNat - '0'.toNat)) 0

/-- The suite tree handled by the adapter: `TestSuiteInfo` and `TestInfo`
nodes of the test-adapter API. -/
inductive TestNode where
  | suite (id : String) (label : String) (file : Option String) (children : List TestNode)
  | test (id : String) (label : String) (file : String) (line : Nat)

def TestNode.id : TestNode → String
  | .suite i _ _ _ => i
  | .test i _ _ _ => i

def TestNode.isSuite : TestNode → Bool
  | .suite _ _ _ _ => true
  | .test _ _ _ _ => false

def TestNode.file? : TestNode → Option String
  | .suite _ _ f _ => f
  | .test _ _ f _ => some f

def TestNode.children : TestNode → List TestNode
  | .suite _ _ _ cs => cs
  | .test _ _ _ _ => []

/-- Everything the adapter emits towards its collaborators: events fired
on the two emitters, processes handed to `child_process.exec`, and error
messages shown via `vscode.window.showErrorMessage`. -/
inductive Ev where
  | loadStarted
  | loadFinished (suite : TestNode)
  | runStarted (tests : List String)
  | runFinished
  | suiteRunning (id : String)
  | suiteCompleted (id : String)
  | testRunning (id : String)
  | testPassed (id : String)
  | testFailed (id : String) (decoration : Option (Int × String))
  | spawnMake (args : String)
  | spawnExe (path : String)
  | errorMsg (msg : String)

/-- `checkTestResult` (adapter.ts lines 287–316): fire a `running` event
for the test, build the pattern
`:([0-9]+):.*<label>:(PASS|(FAIL: (.*)))`, search the captured suite
output; on a `PASS` match fire `passed`, on a `FAIL` match fire `failed`
with the 1-based output line converted to 0-based (`parseInt(match[1]) -
1`) and the message of group 4; with no match, fire nothing further. -/
def checkTestResult (id label : String) (suiteResult : String) : List Ev :=
  Ev.testRunning id ::
    match regexExec label.data suiteResult.data with
    | none => []
    | some (_, PF.pass) => [Ev.testPassed id]
    | some (ds, PF.fail msg) =>
      [Ev.testFailed id (some ((parseIntDigits ds : Int) - 1, String.mk msg))]

mutual

/-- `findSuite` (adapter.ts lines 242–255): scan the children of a suite;
a child whose id matches is returned if it is itself a suite, otherwise
the containing suite is returned; suite children with other ids are
searched recursively. -/
def findSuite : TestNode → String → Option TestNode
  | .suite i l f cs, id => findSuiteIn (.suite i l f cs) cs id
  | .test _ _ _ _, _ => none

def findSuiteIn (parent : TestNode) : List TestNode → String → Option TestNode
  | [], _ => none
  | child :: rest, id =>
    if child.id = id then
      if child.isSuite then some child else some parent
    else
      match (if child.isSuite then findSuite child id else none) with
      | some found => some found
      | none => findSuiteIn parent rest id

end

mutual

/-- `findNode` (adapter.ts lines 257–267): return the node itself on an
id match, otherwise search suite children recursively. -/
def findNode : TestNode → String → Option TestNode
  | .suite i l f cs, id =>
    if i = id then some (.suite i l f cs) else findNodeIn cs id
  | .test i l f ln, id =>
    if i = id then some (.test i l f ln) else none

def findNodeIn : List TestNode → String → Option TestNode
  | [], _ => none
  | child :: rest, id =>
    match findNode child id with
    | some found => some found
    | none => findNodeIn rest id

end

/-- Outcome of one `child_process.exec` invocation as observed through
its callback: the `error` object (its message, `none` for the `null`
success case, so JavaScript truthiness of `error` is `Option.isSome`),
and the captured `stdout` and `stderr`. -/
structure SuiteResult where
  error : Option String
  stdout : String
  stderr : String

/-- The adapter's external world: the outcome of the build tool per
argument string, the outcome of a test executable per invocation path,
the two executable-path derivations of `buildTest`/`runTest` (the node
`path` module is an external collaborator), and the two configured
argument strings used by `run`/`buildTest`. -/
structure Env where
  make : String → SuiteResult
  exe : String → SuiteResult
  buildExePath : String → String
  runExePath : String → String
  testBuildCommandArgs : String
  foldersCommandArgs : String

/-- `runMake` (adapter.ts lines 318–335) at the granularity of a single
invocation: spawn `make <args>` and report the callback's outcome.  (The
mutex interaction of `runMake` is modelled separately as a transition
system below.) -/
def runMake (env : Env) (makeArgs : String) : List Ev × SuiteResult :=
  ([Ev.spawnMake makeArgs], env.make makeArgs)

/-- `runExe` (adapter.ts lines 337–354), same granularity as `runMake`. -/
def runExe (env : Env) (exePath : String) : List Ev × SuiteResult :=
  ([Ev.spawnExe exePath], env.exe exePath)

/-- `createFolders` (adapter.ts lines 356–358). -/
def createFolders (env : Env) : List Ev × SuiteResult :=
  runMake env env.foldersCommandArgs

/-- `buildTest` (adapter.ts lines 360–369): when the node carries a file,
invoke the build tool on the derived executable path; a file-less node
falls through and the JavaScript function returns `undefined`, modelled
as `none`. -/
def buildTest (env : Env) (node : TestNode) : List Ev × Option SuiteResult :=
  match node.file? with
  | some f =>
    let (evs, r) := runMake env (env.testBuildCommandArgs ++ " " ++ env.buildExePath f)
    (evs, some r)
  | none => ([], none)

/-- `runTest` (adapter.ts lines 371–378): invoke the built executable;
`none` again models the `undefined` return for a file-less node. -/
def runTest (env : Env) (node : TestNode) : List Ev × Option SuiteResult :=
  match node.file? with
  | some f =>
    let (evs, r) := runExe env (env.runExePath f)
    (evs, some r)
  | none => ([], none)

/-- `runSuiteExe` (adapter.ts lines 269–285): fire suite-running, build;
on a build error show the error and return the build result (the
executable is not run); otherwise run the executable and return its
result; fire suite-completed in either case.  A `none` from
`buildTest`/`runTest` makes the JavaScript `result.error` access throw,
so the trailing events never fire and the exception propagates: this
crash is modelled by a `none` result with the events emitted so far. -/
def runSuiteExe (env : Env) (node : TestNode) : List Ev × Option SuiteResult :=
  match buildTest env node with
  | (evs1, none) => (Ev.suiteRunning node.id :: evs1, none)
  | (evs1, some r1) =>
    if r1.error.isSome then
      (Ev.suiteRunning node.id :: evs1 ++
        [Ev.errorMsg ("Cannot build test executable. Make error:\n" ++ r1.error.getD ""),
         Ev.suiteCompleted node.id], some r1)
    else
      match runTest env node with
      | (evs2, none) => (Ev.suiteRunning node.id :: evs1 ++ evs2, none)
      | (evs2, some r2) =>
        (Ev.suiteRunning node.id :: evs1 ++ evs2 ++ [Ev.suiteCompleted node.id], some r2)

/-- `indexOf? pat s` is the least index at which `pat` occurs in `s`
(`String.prototype.search` with a literal pattern), `none` when absent. -/
def indexOf? (pat : List Char) : List Char → Option Nat
  | [] => if pat.isEmpty then some 0 else none
  | c :: t =>
    if (dropPre? pat (c :: t)).isSome then some 0
    else (indexOf? pat t).map (· + 1)

/-- The stderr needle tested at adapter.ts line 215. -/
def lockedFileMsg : String :=
  "The process cannot access the file because it is being used by another process"

/-- JavaScript truthiness of `s.search(pat)`: `search` yields the match
index or `-1`, and the adapter uses the raw number as a condition, which
is falsy exactly when the index is `0`. -/
def jsSearchTruthy (s pat : String) : Bool :=
  match indexOf? pat.data s.data with
  | some 0 => false
  | _ => true

/-- The per-child result check of a suite-level run (adapter.ts lines
219–223): only children of type `test` are passed to `checkTestResult`. -/
def checkChildren (children : List TestNode) (stdout : String) : List Ev :=
  children.flatMap fun c =>
    match c with
    | .test tid tlabel _ _ => checkTestResult tid tlabel stdout
    | _ => []

/-- The condition `result.error && !result.stdout` of adapter.ts lines
211 and 226: a truthy error object together with falsy (empty) stdout. -/
def errTotal (r : SuiteResult) : Bool := r.error.isSome && (r.stdout == "")

/-- One iteration of the `runSuites` loop (adapter.ts lines 204–239) for
a single requested id: resolve the containing suite, run it, and either
blanket-fail all children (total failure) or check results; the boolean
is `false` when the iteration crashed (file-less suite), aborting the
enclosing run. -/
def runSuiteId (env : Env) (tree : TestNode) (suiteOrTestId : String) : List Ev × Bool :=
  match findSuite tree suiteOrTestId with
  | none => ([], true)
  | some s =>
    if s.isSuite then
      match runSuiteExe env s with
      | (evs, none) => (evs, false)
      | (evs, some r) =>
        if suiteOrTestId = s.id then
          if errTotal r then
            (evs ++ s.children.map (fun c => Ev.testFailed c.id none) ++
              (if jsSearchTruthy r.stderr lockedFileMsg then
                [Ev.errorMsg ("Cannot run test executable for " ++ suiteOrTestId ++ " .")]
              else []), true)
          else
            (evs ++ checkChildren s.children r.stdout, true)
        else
          if errTotal r then
            (evs ++ s.children.map (fun c => Ev.testFailed c.id none) ++
              [Ev.errorMsg ("Cannot run test executable for " ++ suiteOrTestId ++ " .")], true)
          else
            match findNode tree suiteOrTestId with
            | some (.test tid tlabel _ _) => (evs ++ checkTestResult tid tlabel r.stdout, true)
            | _ => (evs, true)
    else ([], true)

/-- `runSuites` (adapter.ts lines 200–240): process the requested ids in
order; a crash aborts the remainder of the loop. -/
def runSuitesList (env : Env) (tree : TestNode) : List String → List Ev × Bool
  | [] => ([], true)
  | id :: rest =>
    match runSuiteId env tree id with
    | (evs, false) => (evs, false)
    | (evs, true) =>
      (evs ++ (runSuitesList env tree rest).1, (runSuitesList env tree rest).2)

/-- The root-expansion loop of `run` (adapter.ts lines 146–152): iterate
over the current tree's top-level children and run each suite child via
`runSuites([suite.id])`. -/
def runRootLoop (env : Env) (tree : TestNode) : List TestNode → List Ev × Bool
  | [] => ([], true)
  | c :: rest =>
    if c.isSuite then
      match runSuitesList env tree [c.id] with
      | (evs, false) => (evs, false)
      | (evs, true) =>
        (evs ++ (runRootLoop env tree rest).1, (runRootLoop env tree rest).2)
    else runRootLoop env tree rest

/-- `run` (adapter.ts lines 136–158): fire run-started; when a folders
command is configured, run it and report a failure; dispatch on
`tests[0] === 'root'` to the root expansion or the verbatim id list;
fire run-finished unless an iteration crashed (in which case the
rejected promise skips the trailing event). -/
def run (env : Env) (tree : TestNode) (tests : List String) : List Ev :=
  let folderEvs :=
    if env.foldersCommandArgs != "" then
      (createFolders env).1 ++
        (if (createFolders env).2.error.isSome then
          [Ev.errorMsg "Cannot run make target to create folders needed for output. Please check foldersCommandArgs in settings."]
        else [])
    else []
  let body :=
    if tests.head? = some "root" then runRootLoop env tree tree.children
    else runSuitesList env tree tests
  Ev.runStarted tests :: folderEvs ++ body.1 ++ (if body.2 then [Ev.runFinished] else [])

/-- A file-system subtree as `getFileList` observes it through
`fs.promises`: a regular file, a readable directory with its listing, or
a path whose `readdir` rejects (`badDir` also covers calling `readdir`
on a non-directory, which rejects the same way). -/
inductive FsEntry where
  | file (name : String)
  | dir (name : String) (entries : List FsEntry)
  | badDir (name : String)

def FsEntry.name : FsEntry → String
  | .file n => n
  | .dir n _ => n
  | .badDir n => n

/-- What `getFileList` produces: the returned path list plus the error
messages shown to the user along the way. -/
structure ScanResult where
  files : List String
  errors : List String
deriving DecidableEq

mutual

/-- `getFileList` (adapter.ts lines 463–487): list the directory; when
`readdir` rejects, show an error and return `['']`; otherwise walk the
entries in order, keeping matching regular files and recursing into
everything else.  Child paths are formed with a separator, modelling
`path.resolve(filePath, item)`. -/
def getFileList (pred : String → Bool) (fullPath : String) : FsEntry → ScanResult
  | .dir _ entries => scanEntries pred fullPath entries
  | _ => { files := [""], errors := ["Cannot find test result path!"] }

def scanEntries (pred : String → Bool) (fullPath : String) : List FsEntry → ScanResult
  | [] => { files := [], errors := [] }
  | e :: rest =>
    let childPath := fullPath ++ "/" ++ e.name
    let r1 :=
      match e with
      | .file n => if pred n then ScanResult.mk [childPath] [] else ScanResult.mk [] []
      | .dir n es => getFileList pred childPath (.dir n es)
      | .badDir n => getFileList pred childPath (.badDir n)
    let r2 := scanEntries pred fullPath rest
    { files := r1.files ++ r2.files, errors := r1.errors ++ r2.errors }

end

/-- The collaborators of `loadTests` that are fixed per load cycle: the
`testNameRegex` match loop over a file's text (yielding, per match, the
test name `match[1] + match[2]` and the computed 0-based line — see
`matchLine` below for the line computation itself) and the two label
functions. -/
structure LoadEnv where
  extract : String → List (String × Nat)
  testLabel : String → String
  fileLabel : String → String

/-- The per-file suite built by the `loadTests` loop body (adapter.ts
lines 168–195): a suite whose id and file are the file path, with one
test child per regex match, ids of the form `file::testName`. -/
def suiteOfFile (lenv : LoadEnv) (file : String) (text : String) : TestNode :=
  .suite file (lenv.fileLabel file) (some file)
    ((lenv.extract text).map fun nl =>
      .test (file ++ "::" ++ nl.1) (lenv.testLabel nl.1) file nl.2)

/-- The `loadTests` file loop: each file's text is read with
`fs.promises.readFile`; a rejected read (`none`) throws out of the loop
and the whole call rejects. -/
def loadTestsChildren (lenv : LoadEnv) : List (String × Option String) → Except Unit (List TestNode)
  | [] => .ok []
  | (file, content) :: rest =>
    match content with
    | none => .error ()
    | some text => (loadTestsChildren lenv rest).map (suiteOfFile lenv file text :: ·)

/-- `loadTests` (adapter.ts lines 160–198): build the root suite from
the per-file suites, or reject when any read rejects. -/
def loadTests (lenv : LoadEnv) (files : List (String × Option String)) : Except Unit TestNode :=
  (loadTestsChildren lenv files).map (TestNode.suite "root" "Unity" none ·)

/-- `load` (adapter.ts lines 120–134) at the granularity of its emitter
events: fire load-started, then fire load-finished with the new tree;
when `loadTests` rejects, the promise returned by `load` rejects before
the finished event. -/
def load (lenv : LoadEnv) (files : List (String × Option String)) : List Ev :=
  Ev.loadStarted ::
    match loadTests lenv files with
    | .ok t => [Ev.loadFinished t]
    | .error _ => []

/-- A greedy `.*` capture: the maximal run of non-newline characters. -/
def jsDotStar (s : List Char) : List Char := s.takeWhile notNl

/-- `testLabelRegex.exec` (pattern `^(test_)(.*)`): anchored at the
start of the name; on success the returned value is group 2, the greedy
`.*` after the prefix. -/
def testLabelExec (name : List Char) : Option (List Char) :=
  (dropPre? "test_".data name).map jsDotStar

/-- `setTestLabel` (adapter.ts lines 513–523): with prettification
enabled and a regex match, the label is group 2; otherwise the raw test
name. -/
def setTestLabel (pretty : Bool) (testName : String) : String :=
  if pretty then
    match testLabelExec testName.data with
    | some g2 => String.mk g2
    | none => testName
  else testName

/-- Case-insensitive variant of `dropPre?`, for the `i` flag of
`fileLabelRegex`. -/
def dropPreCI? : List Char → List Char → Option (List Char)
  | [], s => some s
  | _ :: _, [] => none
  | p :: ps, c :: cs => if p.toLower = c.toLower then dropPreCI? ps cs else none

/-- `containsCI pat s`: `pat` occurs case-insensitively somewhere in `s`. -/
def containsCI (pat : List Char) : List Char → Bool
  | [] => (dropPreCI? pat []).isSome
  | c :: t => (dropPreCI? pat (c :: t)).isSome || containsCI pat t

/-- JavaScript `\w`. -/
def isWordChar (c : Char) : Bool :=
  (('a' ≤ c) && (c ≤ 'z')) || (('A' ≤ c) && (c ≤ 'Z')) ||
  (('0' ≤ c) && (c ≤ '9')) || (c == '_')

/-- The tail `(_test)(\.c)` of `fileLabelRegex`, case-insensitive,
matched at the head of `s` (the pattern is not end-anchored). -/
def fileTail? (s : List Char) : Option Unit :=
  match dropPreCI? "_test".data s with
  | some r => (dropPreCI? ".c".data r).map (fun _ => ())
  | none => none

/-- `(.*)(_test)(\.c)` at the head of `s`: the group-2 `.*` is greedy
with backtracking, so the longest admissible capture is returned. -/
def matchGroup2 (s : List Char) : Option (List Char) :=
  tryDown
    (fun k => if (fileTail? (s.drop k)).isSome then some (s.take k) else none)
    (jsDotStar s).length

/-- `(\w:.*[\/\\])` followed by the rest of `fileLabelRegex`, at the
head of `s`: a word character, a colon, a greedy backtracking `.*`, a
slash or backslash, then `matchGroup2`. -/
def matchSlashPart (s : List Char) : Option (List Char) :=
  match s with
  | c0 :: c1 :: rest =>
    if (isWordChar c0 = true) ∧ (c1 = ':') then
      tryDown
        (fun k =>
          match rest.drop k with
          | sl :: rest2 =>
            if (sl = '/') ∨ (sl = '\\') then matchGroup2 rest2 else none
          | [] => none)
        (jsDotStar rest).length
    else none
  | _ => none

/-- `fileLabelRegex.exec` (pattern `(\w:.*[\/\\])(.*)(_test)(\.c)` with
the `i` flag, unanchored): scan start positions left to right and return
group 2 of the first match. -/
def fileLabelExec : List Char → Option (List Char)
  | [] => none
  | c :: t =>
    match matchSlashPart (c :: t) with
    | some g2 => some g2
    | none => fileLabelExec t

/-- `setFileLabel` (adapter.ts lines 525–535): the default label is
`path.relative(workspace, fileName)` (the node `path` module is an
external collaborator, abstracted as the `relative` parameter); with
prettification enabled and a regex match, the label is group 2. -/
def setFileLabel (pretty : Bool) (relative : String → String) (fileName : String) : String :=
  let fileLabel := relative fileName
  if pretty then
    match fileLabelExec fileName.data with
    | some g2 => String.mk g2
    | none => fileLabel
  else fileLabel

/-- `String.prototype.split('\n')` on a character list. -/
def splitNl : List Char → List (List Char)
  | [] => [[]]
  | c :: t =>
    let r := splitNl t
    if c = '\n' then [] :: r
    else (c :: r.headD []) :: r.tail

/-- Number of newline characters in a character list. -/
def countNl : List Char → Nat
  | [] => 0
  | c :: t => (if c = '\n' then 1 else 0) + countNl t

/-- Index of the first non-whitespace character of a list. -/
def findNonWS : List Char → Option Nat
  | [] => none
  | c :: t => if isWS c then (findNonWS t).map (· + 1) else some 0

/-- `match[0].search(/\S/g)`: index of the first non-whitespace
character of the matched text, `-1` when there is none. -/
def jsSearchNonWS (m : List Char) : Int :=
  match findNonWS m with
  | some i => (i : Int)
  | none => -1

/-- The line computation of `loadTests` (adapter.ts lines 183–184):
`fileText.substr(0, match.index).split('\n').length - 1` plus
`match[0].substr(0, match[0].search(/\S/g)).split('\n').length - 1`
(a negative `substr` length yields the empty string, hence `Int.toNat`). -/
def matchLine (fileText : List Char) (idx : Nat) (m : List Char) : Nat :=
  ((splitNl (fileText.take idx)).length - 1)
    + ((splitNl (m.take (jsSearchNonWS m).toNat)).length - 1)

/-- The 0-based line number of the character at position `pos` of `s`:
the number of newlines strictly before it. -/
def lineAt (s : List Char) (pos : Nat) : Nat := countNl (s.take pos)

/-- Atomic actions of concurrent `runMake` (or, identically, `runExe`)
callers, indexed by a caller number: acquire the mutex, spawn the
process via `child_process.exec`, release the mutex, and the external
completion of the spawned process. -/
inductive MAct where
  | acq (c : Nat)
  | spawn (c : Nat)
  | rel (c : Nat)
  | complete (c : Nat)
deriving DecidableEq

/-- State of the mutex domain: the current mutex holder and which
callers have acquired, spawned, and had their process complete. -/
structure MState where
  holder : Option Nat
  acquired : List Nat
  spawned : List Nat
  completed : List Nat
deriving DecidableEq

def MState.init : MState := ⟨none, [], [], []⟩

/-- Transition relation of `runMake` as written (adapter.ts lines
318–335): a caller acquires the free mutex, spawns while holding it, and
releases after spawning — the `finally` clause runs as soon as
`return new Promise(...)` is executed, i.e. right after
`child_process.exec` has started the process and before its callback
resolves, so release requires only that the caller has spawned, not that
its process has completed.  Completion is an external event possible any
time after the spawn. -/
def mstep : MState → MAct → Option MState
  | st, .acq c =>
    if st.holder = none ∧ c ∉ st.acquired then
      some { st with holder := some c, acquired := c :: st.acquired }
    else none
  | st, .spawn c =>
    if st.holder = some c ∧ c ∉ st.spawned then
      some { st with spawned := c :: st.spawned }
    else none
  | st, .rel c =>
    if st.holder = some c ∧ c ∈ st.spawned then
      some { st with holder := none }
    else none
  | st, .complete c =>
    if c ∈ st.spawned ∧ c ∉ st.completed then
      some { st with completed := c :: st.completed }
    else none

/-- Run a sequence of actions from a state; `none` when some action is
not enabled. -/
def mrun : MState → List MAct → Option MState
  | st, [] => some st
  | st, a :: rest =>
    match mstep st a with
    | some st2 => mrun st2 rest
    | none => none

/-- A trace the code can produce: every action enabled in sequence from
the initial state. -/
def validTrace (tr : List MAct) : Bool := (mrun MState.init tr).isSome

/-- Caller `c`'s process is running in state `st`: spawned but not yet
completed. -/
def runningIn (st : MState) (c : Nat) : Bool :=
  st.spawned.contains c && !(st.completed.contains c)

/-- Both given callers' processes are running after the first `i`
actions of the trace. -/
def twoRunningAfter (tr : List MAct) (i : Nat) (c1 c2 : Nat) : Bool :=
  match mrun MState.init (tr.take i) with
  | some st => runningIn st c1 && runningIn st c2
  | none => false

/-- Modelled from the spec: the transition relation the specification
describes, in which "the mutex of each domain is held for the entire
lifetime of the spawned process", i.e. a caller may release only after
its spawned process has completed.  Identical to `mstep` except for the
release guard. -/
def mstepSpec : MState → MAct → Option MState
  | st, .acq c =>
    if st.holder = none ∧ c ∉ st.acquired then
      some { st with holder := some c, acquired := c :: st.acquired }
    else none
  | st, .spawn c =>
    if st.holder = some c ∧ c ∉ st.spawned then
      some { st with spawned := c :: st.spawned }
    else none
  | st, .rel c =>
    if st.holder = some c ∧ c ∈ st.completed then
      some { st with holder := none }
    else none
  | st, .complete c =>
    if c ∈ st.spawned ∧ c ∉ st.completed then
      some { st with completed := c :: st.completed }
    else none

def mrunSpec : MState → List MAct → Option MState
  | st, [] => some st
  | st, a :: rest =>
    match mstepSpec st a with
    | some st2 => mrunSpec st2 rest
    | none => none

/-- A trace admissible under the specification's mutex discipline. -/
def validTraceSpec (tr : List MAct) : Bool := (mrunSpec MState.init tr).isSome

/-- The interleaving produced by two `run()` callers 0 and 1: caller 0
acquires, spawns and — because `release()` sits in a `finally` executed
at `return new Promise(...)` — releases; caller 1 then acquires and
spawns while caller 0's process is still running; both processes
complete afterwards. -/
def bugTrace : List MAct :=
  [.acq 0, .spawn 0, .rel 0, .acq 1, .spawn 1, .complete 0, .complete 1]

def isSuiteRunningEv : Ev → Bool
  | .suiteRunning _ => true
  | _ => false

def isTestRunningEv : Ev → Bool
  | .testRunning _ => true
  | _ => false

def TestNode.isTest : TestNode → Bool
  | .test _ _ _ _ => true
  | _ => false

/-- A file-level suite as `loadTests` builds them: a suite node carrying
a file whose children are all tests. -/
def fileSuite : TestNode → Bool
  | .suite _ _ f cs => f.isSome && cs.all TestNode.isTest
  | .test _ _ _ _ => false

mutual

/-- All node ids of a tree, the node's own id first. -/
def TestNode.allIds : TestNode → List String
  | .suite i _ _ cs => i :: allIdsList cs
  | .test i _ _ _ => [i]

def allIdsList : List TestNode → List String
  | [] => []
  | c :: rest => c.allIds ++ allIdsList rest

end

/-- Fixture for the error-surfacing analysis of `runSuites`: the build
tool succeeds and the test executable fails with empty stdout and a
stderr that starts with the locked-file message. -/
def cenvC7 : Env :=
  { make := fun _ => ⟨none, "", ""⟩
    exe := fun _ => ⟨some "boom", "", lockedFileMsg⟩
    buildExePath := fun f => f
    runExePath := fun f => f
    testBuildCommandArgs := "make_args"
    foldersCommandArgs := "" }

/-- Fixture tree: one file suite with a single test. -/
def ctreeC7 : TestNode :=
  .suite "root" "Unity" none
    [.suite "s.c" "s" (some "s.c") [.test "s.c::test_a" "test_a" "s.c" 0]]

/-- Fixture like `cenvC7` but with a stderr that does not start with the
locked-file message. -/
def cenvC7b : Env :=
  { make := fun _ => ⟨none, "", ""⟩
    exe := fun _ => ⟨some "boom", "", "boom"⟩
    buildExePath := fun f => f
    runExePath := fun f => f
    testBuildCommandArgs := "make_args"
    foldersCommandArgs := "" }

/-- Fixture environment in which every build and every execution
succeeds with empty output. -/
def benignEnv : Env :=
  { make := fun _ => ⟨none, "", ""⟩
    exe := fun _ => ⟨none, "", ""⟩
    buildExePath := fun f => f
    runExePath := fun f => f
    testBuildCommandArgs := "mk"
    foldersCommandArgs := "" }

/-- Fixture suites for the dispatch analysis of `run`. -/
def suiteA : TestNode :=
  .suite "a.c" "a" (some "a.c") [.test "a.c::t1" "t1" "a.c" 0]

def suiteB : TestNode :=
  .suite "b.c" "b" (some "b.c") []

def tree6 : TestNode := .suite "root" "Unity" none [suiteA, suiteB]

/-- Claim C1: the interleaving semantics of `runMake`/`runExe` as written
admits a valid trace in which two callers' spawned processes run at the
same instant — the mutex is released by the `finally` clause when
`return new Promise(...)` executes, i.e. at spawn time, not at process
completion — while the same trace is not admissible under the
specification's discipline in which the mutex is held for the entire
process lifetime. -/
theorem mutex_released_before_completion :
    validTrace bugTrace = true
  ∧ twoRunningAfter bugTrace 5 0 1 = true
  ∧ validTraceSpec bugTrace = false :=
  ⟨by decide, by decide, by decide⟩

/-- Claim C2: `checkTestResult` classifies the first output fragment
matching `:<line>:.*<label>:(PASS|FAIL: <msg>)`: a `PASS` match fires a
passed event, a `FAIL` match fires a failed event whose decoration line
is the parsed 1-based line minus one and whose message is the text after
`FAIL: `; in particular the two concrete outputs of the specification
are classified as Passed, and as Failed with line 19 and message
`Expected 4 Was 5`. -/
theorem checkTestResult_classification :
    (∀ id label out ds, regexExec label.data out.data = some (ds, PF.pass) →
        checkTestResult id label out = [Ev.testRunning id, Ev.testPassed id])
  ∧ (∀ id label out ds msg, regexExec label.data out.data = some (ds, PF.fail msg) →
        checkTestResult id label out =
          [Ev.testRunning id,
           Ev.testFailed id (some ((parseIntDigits ds : Int) - 1, String.mk msg))])
  ∧ checkTestResult "test_addTwoNumbers" "test_addTwoNumbers" ":12:test_addTwoNumbers:PASS\n"
      = [Ev.testRunning "test_addTwoNumbers", Ev.testPassed "test_addTwoNumbers"]
  ∧ checkTestResult "test_sub" "test_sub" ":20:test_sub:FAIL: Expected 4 Was 5"
      = [Ev.testRunning "test_sub",
         Ev.testFailed "test_sub" (some (19, "Expected 4 Was 5"))] := by
  refine ⟨?_, ?_, rfl, rfl⟩
  · intro id label out ds h
    simp [checkTestResult, h]
  · intro id label out ds msg h
    simp [checkTestResult, h]

/-- Witness for C2: the pass branch applied at a concrete output. -/
theorem checkTestResult_classification_witness :
    checkTestResult "s.c::test_x" "test_x" ":3:test_x:PASS"
      = [Ev.testRunning "s.c::test_x", Ev.testPassed "s.c::test_x"] :=
  checkTestResult_classification.1 "s.c::test_x" "test_x" ":3:test_x:PASS" ['3'] rfl

/-- Counterexample for C3: on output with no matching result line,
`checkTestResult` does fire an event — the unconditional `running` event
at its entry — so "no event at all (no running, passed, or failed
event)" fails on the code. -/
theorem checkTestResult_noMatch_counterexample :
    regexExec "test_foo".data "".data = none
  ∧ checkTestResult "f.c::test_foo" "test_foo" "" = [Ev.testRunning "f.c::test_foo"]
  ∧ ([Ev.testRunning "f.c::test_foo"] : List Ev) ≠ [] :=
  ⟨rfl, rfl, by simp⟩

/-- Claim C3 (amended): when no line matches the result pattern for the
test, `checkTestResult` fires the `running` event and nothing else — no
passed or failed event — and raises no error. -/
theorem checkTestResult_noMatch_runningOnly (id label out : String)
    (h : regexExec label.data out.data = none) :
    checkTestResult id label out = [Ev.testRunning id] := by
  simp [checkTestResult, h]

/-- Witness for the amended C3 at a concrete non-matching output. -/
theorem checkTestResult_noMatch_runningOnly_witness :
    checkTestResult "f.c::test_foo" "test_foo" "xyz" = [Ev.testRunning "f.c::test_foo"] :=
  checkTestResult_noMatch_runningOnly "f.c::test_foo" "test_foo" "xyz" rfl

/-- Counterexample for C4: a root whose directory read fails yields
`['']` — a ONE-element list containing the empty string — not an empty
sequence of file paths. -/
theorem getFileList_unreadable_counterexample :
    getFileList (fun _ => true) "/ws/test" (FsEntry.badDir "test")
      = ⟨[""], ["Cannot find test result path!"]⟩
  ∧ (getFileList (fun _ => true) "/ws/test" (FsEntry.badDir "test")).files ≠ [] :=
  ⟨rfl, by decide⟩

/-- Claim C4 (amended): a failed directory read reports the error to the
user and yields the single-element list `['']` for that subtree, and the
failure is non-fatal — siblings of an unreadable directory are still
scanned. -/
theorem getFileList_unreadable (pred : String → Bool) (p n dn bn fn : String)
    (rest : List FsEntry) (hf : pred fn = true) :
    getFileList pred p (FsEntry.badDir n)
      = ⟨[""], ["Cannot find test result path!"]⟩
  ∧ (getFileList pred p (FsEntry.dir dn (FsEntry.badDir bn :: FsEntry.file fn :: rest))).files
      = "" :: (p ++ "/" ++ fn) :: (scanEntries pred p rest).files := by
  constructor
  · rfl
  · simp [getFileList, scanEntries, hf, FsEntry.name]

/-- Witness for the amended C4 at a concrete scan. -/
theorem getFileList_unreadable_witness :
    ((fun (_ : String) => true) "a.c" = true)
  ∧ getFileList (fun _ => true) "/ws" (FsEntry.badDir "tests")
      = ⟨[""], ["Cannot find test result path!"]⟩
  ∧ (getFileList (fun _ => true) "/ws"
        (FsEntry.dir "d" [FsEntry.badDir "b", FsEntry.file "a.c"])).files
      = "" :: ("/ws" ++ "/" ++ "a.c") :: (scanEntries (fun _ => true) "/ws" []).files :=
  ⟨rfl, (getFileList_unreadable (fun _ => true) "/ws" "tests" "d" "b" "a.c" [] rfl).1,
    (getFileList_unreadable (fun _ => true) "/ws" "tests" "d" "b" "a.c" [] rfl).2⟩

/-- Claim C10: with no folders-preparation command configured, an empty
request list produces exactly a run-started event followed by a
run-finished event — no suite, test, or spawn events in between. -/
theorem run_empty_request (env : Env) (tree : TestNode)
    (h : env.foldersCommandArgs = "") :
    run env tree [] = [Ev.runStarted [], Ev.runFinished] := by
  simp [run, h, runSuitesList]

/-- Witness for C10 at a concrete environment and tree. -/
theorem run_empty_request_witness :
    run ⟨fun _ => ⟨none, "", ""⟩, fun _ => ⟨none, "", ""⟩, fun f => f, fun f => f, "", ""⟩
        (TestNode.suite "root" "Unity" none []) []
      = [Ev.runStarted [], Ev.runFinished] :=
  run_empty_request _ _ rfl

theorem loadTestsChildren_error (lenv : LoadEnv) (files : List (String × Option String))
    (h : files.any (fun fc => fc.2.isNone) = true) :
    loadTestsChildren lenv files = .error () := by
  induction files with
  | nil => simp at h
  | cons fc rest ih =>
    obtain ⟨f, c⟩ := fc
    cases c with
    | none => rfl
    | some txt =>
      have hr : rest.any (fun fc => fc.2.isNone) = true := by
        simpa using h
      simp [loadTestsChildren, ih hr, Except.map]

/-- Claim C8: a failing file read makes the whole load cycle fail —
`loadTests` rejects instead of skipping the file, so `load` never fires
the load-finished event for that cycle. -/
theorem loadTests_read_failure_propagates (lenv : LoadEnv)
    (files : List (String × Option String))
    (h : files.any (fun fc => fc.2.isNone) = true) :
    loadTests lenv files = .error ()
  ∧ ∀ t, Ev.loadFinished t ∉ load lenv files := by
  have he : loadTests lenv files = .error () := by
    simp [loadTests, loadTestsChildren_error lenv files h, Except.map]
  refine ⟨he, ?_⟩
  intro t
  simp [load, he]

/-- Witness for C8: a single unreadable file. -/
theorem loadTests_read_failure_propagates_witness :
    ([("a.c", (none : Option String))].any (fun fc => fc.2.isNone) = true)
  ∧ loadTests ⟨fun _ => [], fun n => n, fun n => n⟩ [("a.c", none)] = .error () :=
  ⟨rfl, (loadTests_read_failure_propagates ⟨fun _ => [], fun n => n, fun n => n⟩
    [("a.c", none)] rfl).1⟩

theorem splitNl_length (s : List Char) : (splitNl s).length = countNl s + 1 := by
  induction s with
  | nil => rfl
  | cons c t ih =>
    by_cases hc : c = '\n'
    · simp [splitNl, countNl, hc, ih]; omega
    · simp [splitNl, countNl, hc, List.length_tail, ih]

theorem countNl_append (a b : List Char) : countNl (a ++ b) = countNl a + countNl b := by
  induction a with
  | nil => simp [countNl]
  | cons c t ih => simp [countNl, ih]; omega

theorem findNonWS_ws_append (ws : List Char) (c : Char) (rest : List Char)
    (hws : ∀ x ∈ ws, isWS x = true) (hc : isWS c = false) :
    findNonWS (ws ++ c :: rest) = some ws.length := by
  induction ws with
  | nil => simp [findNonWS, hc]
  | cons w t ih =>
    have hw : isWS w = true := hws w (by simp)
    have ht := ih (fun x hx => hws x (by simp [hx]))
    simp [findNonWS, hw, ht]

/-- Claim C5: for a match of the test-declaration regex — which always
consists of leading whitespace (possibly spanning blank lines) followed
by the non-whitespace `void` token — the line computed by `loadTests`
(newlines before the match start plus newlines in the leading whitespace
of the match) equals the 0-based line of the first non-whitespace
character of the match, i.e. of the `void` token. -/
theorem loadTests_line_is_void_line (pre ws rest post : List Char) (c : Char)
    (hws : ∀ x ∈ ws, isWS x = true) (hc : isWS c = false) :
    matchLine (pre ++ (ws ++ c :: rest) ++ post) pre.length (ws ++ c :: rest)
      = lineAt (pre ++ (ws ++ c :: rest) ++ post) (pre.length + ws.length) := by
  unfold matchLine lineAt jsSearchNonWS
  rw [findNonWS_ws_append ws c rest hws hc]
  have h1 : (pre ++ (ws ++ c :: rest) ++ post).take pre.length = pre := by
    rw [List.append_assoc]
    exact List.take_left pre _
  have h2 : (ws ++ c :: rest).take ((ws.length : Int).toNat) = ws := by
    simp [List.take_left ws (c :: rest)]
  have h3 : (pre ++ (ws ++ c :: rest) ++ post).take (pre.length + ws.length)
      = pre ++ ws := by
    have : pre ++ (ws ++ c :: rest) ++ post = (pre ++ ws) ++ (c :: rest ++ post) := by
      simp [List.append_assoc]
    rw [this]
    exact List.take_left' (by simp)
  rw [h1, h2, h3, splitNl_length, splitNl_length, countNl_append]
  omega

/-- Witness for C5: a declaration preceded by a comment line and a blank
line inside the leading whitespace of the match. -/
theorem loadTests_line_is_void_line_witness :
    (∀ x ∈ "\n  ".data, isWS x = true)
  ∧ isWS 'v' = false
  ∧ matchLine ("int x;\n".data ++ ("\n  ".data ++ 'v' :: "oid test_a(void)".data) ++ " {}\n".data)
        "int x;\n".data.length ("\n  ".data ++ 'v' :: "oid test_a(void)".data)
      = lineAt ("int x;\n".data ++ ("\n  ".data ++ 'v' :: "oid test_a(void)".data) ++ " {}\n".data)
        ("int x;\n".data.length + "\n  ".data.length) :=
  ⟨by decide, by decide,
    loadTests_line_is_void_line "int x;\n".data "\n  ".data "oid test_a(void)".data
      " {}\n".data 'v' (by decide) (by decide)⟩

theorem dropPre?_self_append (p r : List Char) : dropPre? p (p ++ r) = some r := by
  induction p with
  | nil => rfl
  | cons x xs ih => simp [dropPre?, ih]

theorem dropPre?_eq_some (p : List Char) : ∀ s r, dropPre? p s = some r → s = p ++ r := by
  induction p with
  | nil => intro s r h; simp [dropPre?] at h; simp [h]
  | cons x xs ih =>
    intro s r h
    cases s with
    | nil => simp [dropPre?] at h
    | cons c cs =>
      by_cases hx : x = c
      · subst hx
        simp only [dropPre?, if_pos rfl] at h
        simp [ih cs r h]
      · simp [dropPre?, hx] at h

theorem takeWhile_notNl_of_all (l : List Char) (h : ∀ x ∈ l, notNl x = true) :
    l.takeWhile notNl = l := by
  induction l with
  | nil => rfl
  | cons c t ih =>
    simp [List.takeWhile_cons, h c (by simp), ih (fun x hx => h x (by simp [hx]))]

theorem tryDown_some {α : Type} (f : Nat → Option α) :
    ∀ k r, tryDown f k = some r → ∃ i, i ≤ k ∧ f i = some r := by
  intro k
  induction k with
  | zero => intro r h; exact ⟨0, Nat.le_refl 0, h⟩
  | succ n ih =>
    intro r h
    unfold tryDown at h
    cases hf : f (n + 1) with
    | some v =>
      rw [hf] at h
      exact ⟨n + 1, Nat.le_refl _, by rw [hf]; exact h⟩
    | none =>
      rw [hf] at h
      obtain ⟨i, hi, hfi⟩ := ih r h
      exact ⟨i, Nat.le_succ_of_le hi, hfi⟩

theorem containsCI_suffix_none (pat : List Char) :
    ∀ s, containsCI pat s = false →
      ∀ t, t <:+ s → (dropPreCI? pat t).isSome = false := by
  intro s
  induction s with
  | nil =>
    intro h t ht
    rw [List.suffix_nil.mp ht]
    simpa [containsCI] using h
  | cons c cs ih =>
    intro h t ht
    have h2 : (dropPreCI? pat (c :: cs)).isSome = false ∧ containsCI pat cs = false := by
      simpa [containsCI] using h
    rcases List.suffix_cons_iff.mp ht with he | hs
    · rw [he]; exact h2.1
    · exact ih h2.2 t hs

theorem fileTail?_isSome (u : List Char) (h : (fileTail? u).isSome = true) :
    (dropPreCI? "_test".data u).isSome = true := by
  unfold fileTail? at h
  cases hu : dropPreCI? "_test".data u with
  | none => rw [hu] at h; simp at h
  | some r => simp

theorem matchGroup2_contains (s g : List Char) (h : matchGroup2 s = some g) :
    ∃ t, t <:+ s ∧ (dropPreCI? "_test".data t).isSome = true := by
  unfold matchGroup2 at h
  obtain ⟨i, _, hf⟩ := tryDown_some _ _ _ h
  by_cases hft : (fileTail? (s.drop i)).isSome = true
  · exact ⟨s.drop i, List.drop_suffix i s, fileTail?_isSome _ hft⟩
  · rw [if_neg (by simpa using hft)] at hf
    exact absurd hf (by simp)

theorem matchSlashPart_contains (s g : List Char) (h : matchSlashPart s = some g) :
    ∃ t, t <:+ s ∧ (dropPreCI? "_test".data t).isSome = true := by
  match s, h with
  | c0 :: c1 :: rest, h =>
    rw [matchSlashPart] at h
    by_cases hw : (isWordChar c0 = true) ∧ (c1 = ':')
    · rw [if_pos hw] at h
      obtain ⟨i, _, hf⟩ := tryDown_some _ _ _ h
      revert hf
      cases hd : rest.drop i with
      | nil => intro hf; exact absurd hf (by simp)
      | cons sl rest2 =>
        intro hf
        have hf2 : (if (sl = '/') ∨ (sl = '\\') then matchGroup2 rest2 else none) = some g := hf
        by_cases hsl : (sl = '/') ∨ (sl = '\\')
        · rw [if_pos hsl] at hf2
          obtain ⟨t, ht, hsome⟩ := matchGroup2_contains rest2 g hf2
          refine ⟨t, ?_, hsome⟩
          have h1 : t <:+ sl :: rest2 := ht.trans (List.suffix_cons sl rest2)
          have h2 : (sl :: rest2) <:+ rest := hd ▸ List.drop_suffix i rest
          have h3 : rest <:+ c1 :: rest := List.suffix_cons c1 rest
          exact ((h1.trans h2).trans h3).trans (List.suffix_cons c0 (c1 :: rest))
        · rw [if_neg hsl] at hf2
          exact absurd hf2 (by simp)
    · rw [if_neg hw] at h
      exact absurd h (by simp)

theorem fileLabelExec_contains :
    ∀ s g, fileLabelExec s = some g →
      ∃ t, t <:+ s ∧ (dropPreCI? "_test".data t).isSome = true := by
  intro s
  induction s with
  | nil => intro g h; simp [fileLabelExec] at h
  | cons c cs ih =>
    intro g h
    unfold fileLabelExec at h
    cases hm : matchSlashPart (c :: cs) with
    | some g2 => exact matchSlashPart_contains (c :: cs) g2 hm
    | none =>
      rw [hm] at h
      obtain ⟨t, ht, hs⟩ := ih g h
      exact ⟨t, ht.trans (List.suffix_cons c cs), hs⟩

/-- Counterexample for C9: the pattern `^(test_)(.*)` captures group 2
with `.`, which cannot cross a newline, so for the prefix-carrying name
`test_a\nb` the prettified label is `a`, not the name with the prefix
removed once (`a\nb`). -/
theorem setTestLabel_newline_counterexample :
    setTestLabel true "test_a\nb" = "a"
  ∧ "test_a\nb" = String.mk ("test_".data ++ "a\nb".data)
  ∧ ("a" : String) ≠ "a\nb" :=
  ⟨rfl, rfl, by decide⟩

/-- Claim C9 (amended): with prettification enabled, a newline-free test
name carrying the `test_` prefix is returned with the prefix stripped
exactly once; a name not carrying the prefix is returned unchanged; and
a file name not containing the `_test` suffix (case-insensitively) keeps
its non-prettified label. -/
theorem label_prettification :
    (∀ rest : List Char, (∀ x ∈ rest, notNl x = true) →
        setTestLabel true (String.mk ("test_".data ++ rest)) = String.mk rest)
  ∧ (∀ (b : Bool) (name : String), (∀ r : List Char, name.data ≠ "test_".data ++ r) →
        setTestLabel b name = name)
  ∧ (∀ (b : Bool) (relative : String → String) (fileName : String),
        containsCI "_test".data fileName.data = false →
        setFileLabel b relative fileName = relative fileName) := by
  refine ⟨?_, ?_, ?_⟩
  · intro rest hrest
    have h1 : testLabelExec ("test_".data ++ rest) = some rest := by
      unfold testLabelExec
      rw [dropPre?_self_append]
      simp [jsDotStar, takeWhile_notNl_of_all rest hrest]
    have h2 : setTestLabel true (String.mk ("test_".data ++ rest))
        = match testLabelExec ("test_".data ++ rest) with
          | some g2 => String.mk g2
          | none => String.mk ("test_".data ++ rest) := rfl
    rw [h2, h1]
  · intro b name hname
    have h1 : dropPre? "test_".data name.data = none := by
      cases hd : dropPre? "test_".data name.data with
      | none => rfl
      | some r => exact absurd (dropPre?_eq_some _ _ _ hd) (hname r)
    cases b <;> simp [setTestLabel, testLabelExec, h1]
  · intro b relative fileName hcontains
    have h1 : fileLabelExec fileName.data = none := by
      cases hd : fileLabelExec fileName.data with
      | none => rfl
      | some g =>
        obtain ⟨t, ht, hs⟩ := fileLabelExec_contains _ _ hd
        rw [containsCI_suffix_none _ _ hcontains t ht] at hs
        exact absurd hs (by simp)
    cases b <;> simp [setFileLabel, h1]

/-- Witness for the amended C9 at concrete names. -/
theorem label_prettification_witness :
    (∀ x ∈ "addTwo".data, notNl x = true)
  ∧ setTestLabel true (String.mk ("test_".data ++ "addTwo".data)) = String.mk "addTwo".data
  ∧ containsCI "_test".data "C:/x/foo.c".data = false
  ∧ setFileLabel true (fun _ => "rel/foo.c") "C:/x/foo.c" = "rel/foo.c" :=
  ⟨by decide, label_prettification.1 "addTwo".data (by decide), by decide,
    label_prettification.2.2 true (fun _ => "rel/foo.c") "C:/x/foo.c" (by decide)⟩

theorem runSuiteExe_none_of_noFile (env : Env) (s : TestNode) (h : s.file? = none) :
    runSuiteExe env s = ([Ev.suiteRunning s.id], none) := by
  simp [runSuiteExe, buildTest, h]

theorem runSuiteExe_cases (env : Env) (s : TestNode) (f : String) (hf : s.file? = some f) :
    ∃ tail r, runSuiteExe env s = (Ev.suiteRunning s.id :: tail, some r)
      ∧ ∀ e ∈ tail, isTestRunningEv e = false ∧ isSuiteRunningEv e = false := by
  simp only [runSuiteExe, buildTest, runTest, runMake, runExe, hf]
  by_cases he : (env.make (env.testBuildCommandArgs ++ " " ++ env.buildExePath f)).error.isSome = true
  · rw [if_pos he]
    refine ⟨_, _, rfl, ?_⟩
    intro e hme
    simp [List.mem_append] at hme
    rcases hme with rfl | rfl | rfl <;> exact ⟨rfl, rfl⟩
  · rw [if_neg he]
    refine ⟨_, _, rfl, ?_⟩
    intro e hme
    simp [List.mem_append] at hme
    rcases hme with rfl | rfl | rfl <;> exact ⟨rfl, rfl⟩

/-- Counterexample for C7: the executable invocation fails with empty
stdout and a stderr that starts with the locked-file message; every
child test is failed and the parser never runs, but NO user-visible
error is surfaced — `result.stderr.search(...)` yields index `0`, which
is falsy, so the `showErrorMessage` call is skipped (adapter.ts line
215 uses the raw search index as a condition). -/
theorem runSuites_noErrorMsg_counterexample :
    run cenvC7 ctreeC7 ["s.c"]
      = [Ev.runStarted ["s.c"], Ev.suiteRunning "s.c", Ev.spawnMake "make_args s.c",
         Ev.spawnExe "s.c", Ev.suiteCompleted "s.c", Ev.testFailed "s.c::test_a" none,
         Ev.runFinished]
  ∧ (cenvC7.exe "s.c").error.isSome = true
  ∧ (cenvC7.exe "s.c").stdout = ""
  ∧ (cenvC7.exe "s.c").stderr = lockedFileMsg :=
  ⟨rfl, rfl, rfl, rfl⟩

/-- Claim C7 (amended): for every suite whose build/execute invocation
returns an error together with empty stdout, `runSuites` fails every
child test of the suite and never invokes the result parser (the parser
always fires a test-running event first, and none occurs); a
user-visible error is surfaced for test-level requests always, and for
suite-level requests exactly when `stderr.search(lockedFileMsg)` is
truthy, i.e. unless stderr starts with the locked-file message. -/
theorem runSuites_total_failure (env : Env) (tree : TestNode) (id : String)
    (s : TestNode) (bevs : List Ev) (r : SuiteResult)
    (hfind : findSuite tree id = some s) (hsuite : s.isSuite = true)
    (hout : runSuiteExe env s = (bevs, some r)) (herr : errTotal r = true) :
    (∀ c ∈ s.children, Ev.testFailed c.id none ∈ (runSuiteId env tree id).1)
  ∧ (∀ e ∈ (runSuiteId env tree id).1, isTestRunningEv e = false)
  ∧ (id = s.id → jsSearchTruthy r.stderr lockedFileMsg = true →
      Ev.errorMsg ("Cannot run test executable for " ++ id ++ " .") ∈ (runSuiteId env tree id).1)
  ∧ (id ≠ s.id →
      Ev.errorMsg ("Cannot run test executable for " ++ id ++ " .") ∈ (runSuiteId env tree id).1) := by
  obtain ⟨f, hf⟩ : ∃ f, s.file? = some f := by
    cases hfl : s.file? with
    | some f => exact ⟨f, rfl⟩
    | none =>
      rw [runSuiteExe_none_of_noFile env s hfl] at hout
      exact absurd (congrArg Prod.snd hout) (by simp)
  obtain ⟨tail, r2, heq, htail⟩ := runSuiteExe_cases env s f hf
  rw [heq] at hout
  have hr : r2 = r := Option.some.inj (congrArg Prod.snd hout)
  subst hr
  have hrs : runSuiteId env tree id
      = ((Ev.suiteRunning s.id :: tail) ++ s.children.map (fun c => Ev.testFailed c.id none)
          ++ (if id = s.id then
                (if jsSearchTruthy r2.stderr lockedFileMsg = true then
                  [Ev.errorMsg ("Cannot run test executable for " ++ id ++ " .")]
                else [])
              else [Ev.errorMsg ("Cannot run test executable for " ++ id ++ " .")]), true) := by
    unfold runSuiteId
    rw [hfind]
    dsimp only
    rw [if_pos hsuite, heq]
    dsimp only
    by_cases hid : id = s.id
    · rw [if_pos hid, if_pos herr, if_pos hid]
    · rw [if_neg hid, if_pos herr, if_neg hid]
  refine ⟨?_, ?_, ?_, ?_⟩
  · intro c hc
    simp only [hrs, List.mem_append]
    exact Or.inl (Or.inr (List.mem_map.mpr ⟨c, hc, rfl⟩))
  · intro e he
    simp only [hrs, List.mem_append, List.mem_cons, List.mem_map] at he
    rcases he with ((rfl | he) | ⟨c, _, rfl⟩) | he
    · rfl
    · exact (htail e he).1
    · rfl
    · have : e = Ev.errorMsg ("Cannot run test executable for " ++ id ++ " .") := by
        by_cases h1 : id = s.id
        · rw [if_pos h1] at he
          by_cases h2 : jsSearchTruthy r2.stderr lockedFileMsg = true
          · rw [if_pos h2] at he; simpa using he
          · rw [if_neg h2] at he; simp at he
        · rw [if_neg h1] at he; simpa using he
      rw [this]; rfl
  · intro hid hse
    simp only [hrs]
    simp [hid, hse]
  · intro hid
    simp only [hrs]
    simp [hid]

/-- Witness for the amended C7: a test-level request against a failing
executable with non-locked stderr, via `runSuites_total_failure`. -/
theorem runSuites_total_failure_witness :
    Ev.testFailed "s.c::test_a" none ∈ (runSuiteId cenvC7b ctreeC7 "s.c").1
  ∧ Ev.errorMsg ("Cannot run test executable for " ++ "s.c" ++ " .")
      ∈ (runSuiteId cenvC7b ctreeC7 "s.c").1 :=
  ⟨(runSuites_total_failure cenvC7b ctreeC7 "s.c"
      (.suite "s.c" "s" (some "s.c") [.test "s.c::test_a" "test_a" "s.c" 0]) _ _
      rfl rfl rfl rfl).1 (.test "s.c::test_a" "test_a" "s.c" 0) (by simp [TestNode.children]),
   (runSuites_total_failure cenvC7b ctreeC7 "s.c"
      (.suite "s.c" "s" (some "s.c") [.test "s.c::test_a" "test_a" "s.c" 0]) _ _
      rfl rfl rfl rfl).2.2.1 rfl rfl⟩

theorem id_mem_allIds (n : TestNode) : n.id ∈ n.allIds := by
  cases n <;> simp [TestNode.allIds, TestNode.id]

theorem allIdsList_mem_id (cs : List TestNode) (c : TestNode) (hc : c ∈ cs) :
    c.id ∈ allIdsList cs := by
  induction cs with
  | nil => simp at hc
  | cons d rest ih =>
    have hl : allIdsList (d :: rest) = d.allIds ++ allIdsList rest := rfl
    rw [hl]
    rcases List.mem_cons.mp hc with rfl | h
    · simp [List.mem_append, id_mem_allIds]
    · simp [List.mem_append, ih h]

theorem fileSuite_isSuite (c : TestNode) (h : fileSuite c = true) : c.isSuite = true := by
  cases c <;> simp_all [fileSuite, TestNode.isSuite]

theorem fileSuite_file (c : TestNode) (h : fileSuite c = true) : ∃ f, c.file? = some f := by
  cases c with
  | suite i l f cs =>
    simp only [fileSuite, Bool.and_eq_true] at h
    exact Option.isSome_iff_exists.mp h.1
  | test _ _ _ _ => simp [fileSuite] at h

theorem findSuiteIn_tests_none (parent : TestNode) (gs : List TestNode) (id : String)
    (hts : gs.all TestNode.isTest = true) (hid : id ∉ allIdsList gs) :
    findSuiteIn parent gs id = none := by
  induction gs with
  | nil => rfl
  | cons g rest ih =>
    have hg : g.isTest = true ∧ rest.all TestNode.isTest = true := by simpa using hts
    have hid2 : id ∉ g.allIds ∧ id ∉ allIdsList rest := by
      have hl : allIdsList (g :: rest) = g.allIds ++ allIdsList rest := rfl
      rw [hl] at hid
      simpa [List.mem_append, not_or] using hid
    cases g with
    | suite i l f gcs => exact absurd hg.1 (by simp [TestNode.isTest])
    | test i l fl ln =>
      have hne : ¬(i = id) := by
        intro h
        exact hid2.1 (by simp [TestNode.allIds, h])
      simp [findSuiteIn, TestNode.id, TestNode.isSuite, hne, ih hg.2 hid2.2]

theorem findSuite_fileSuite_none (s : TestNode) (id : String)
    (hfs : fileSuite s = true) (hid : id ∉ s.allIds) :
    findSuite s id = none := by
  cases s with
  | test i l f ln => exact absurd hfs (by simp [fileSuite])
  | suite i l f cs =>
    have hts : cs.all TestNode.isTest = true := by
      have h2 := hfs
      simp only [fileSuite, Bool.and_eq_true] at h2
      exact h2.2
    have hid2 : id ∉ allIdsList cs := by
      intro hmem
      exact hid (by simp [TestNode.allIds, hmem])
    exact findSuiteIn_tests_none _ cs id hts hid2

theorem findSuiteIn_mem (parent : TestNode) (cs : List TestNode) (c : TestNode)
    (hall : cs.all fileSuite = true) (hnd : (allIdsList cs).Nodup) (hc : c ∈ cs) :
    findSuiteIn parent cs c.id = some c := by
  induction cs with
  | nil => simp at hc
  | cons d rest ih =>
    have hd : fileSuite d = true ∧ rest.all fileSuite = true := by simpa using hall
    have hnd2 : (d.allIds ++ allIdsList rest).Nodup := by
      have hl : allIdsList (d :: rest) = d.allIds ++ allIdsList rest := rfl
      rwa [hl] at hnd
    rcases List.mem_cons.mp hc with rfl | hcr
    · have hcs : c.isSuite = true := fileSuite_isSuite c hd.1
      unfold findSuiteIn
      rw [if_pos rfl, if_pos hcs]
    · have hcid : c.id ∈ allIdsList rest := allIdsList_mem_id rest c hcr
      have hdisj : c.id ∉ d.allIds := by
        have hdj : (d.allIds).Disjoint (allIdsList rest) := (List.nodup_append.mp hnd2).2.2
        exact fun hmem => hdj hmem hcid
      have hne : ¬(d.id = c.id) := fun h => hdisj (h ▸ id_mem_allIds d)
      have hnone : (if d.isSuite then findSuite d c.id else none) = none := by
        by_cases hds : d.isSuite = true
        · rw [if_pos hds]
          exact findSuite_fileSuite_none d c.id hd.1 hdisj
        · rw [if_neg hds]
      unfold findSuiteIn
      rw [if_neg hne, hnone]
      exact ih hd.2 (List.nodup_append.mp hnd2).2.1 hcr

theorem checkTestResult_no_suiteRunning (i l out : String) :
    (checkTestResult i l out).filter isSuiteRunningEv = [] := by
  unfold checkTestResult
  cases regexExec l.data out.data with
  | none => rfl
  | some p =>
    obtain ⟨ds, pf⟩ := p
    cases pf <;> rfl

theorem checkChildren_no_suiteRunning (cs : List TestNode) (out : String) :
    (checkChildren cs out).filter isSuiteRunningEv = [] := by
  induction cs with
  | nil => rfl
  | cons c rest ih =>
    cases c with
    | test ti tl tf tn =>
      have hstep : checkChildren (TestNode.test ti tl tf tn :: rest) out
          = checkTestResult ti tl out ++ checkChildren rest out := by
        simp [checkChildren, List.flatMap_cons]
      rw [hstep, List.filter_append, checkTestResult_no_suiteRunning, ih]
      rfl
    | suite si sl sf scs =>
      have hstep : checkChildren (TestNode.suite si sl sf scs :: rest) out
          = checkChildren rest out := by
        simp [checkChildren, List.flatMap_cons]
      rw [hstep, ih]

theorem map_testFailed_no_suiteRunning (cs : List TestNode) :
    (cs.map (fun c => Ev.testFailed c.id none)).filter isSuiteRunningEv = [] := by
  induction cs with
  | nil => rfl
  | cons c rest ih => simp [List.filter_cons, isSuiteRunningEv, ih]

theorem filter_if_errorMsg (P : Prop) [Decidable P] (m : String) :
    (if P then [Ev.errorMsg m] else []).filter isSuiteRunningEv = [] := by
  split <;> rfl

theorem runSuiteId_resolved (env : Env) (tree : TestNode) (id : String)
    (s : TestNode) (f : String)
    (hfind : findSuite tree id = some s) (hsuite : s.isSuite = true) (hf : s.file? = some f) :
    (runSuiteId env tree id).2 = true
  ∧ (runSuiteId env tree id).1.filter isSuiteRunningEv = [Ev.suiteRunning s.id] := by
  obtain ⟨tail, r, heq, htail⟩ := runSuiteExe_cases env s f hf
  have htail2 : tail.filter isSuiteRunningEv = [] :=
    List.filter_eq_nil_iff.mpr (fun e he => by simp [(htail e he).2])
  unfold runSuiteId
  rw [hfind]
  dsimp only
  rw [if_pos hsuite, heq]
  dsimp only
  by_cases hid : id = s.id
  · rw [if_pos hid]
    by_cases het : errTotal r = true
    · rw [if_pos het]
      refine ⟨rfl, ?_⟩
      simp [List.filter_append, List.filter_cons, isSuiteRunningEv, htail2,
        map_testFailed_no_suiteRunning, filter_if_errorMsg]
    · rw [if_neg het]
      refine ⟨rfl, ?_⟩
      simp [List.filter_append, List.filter_cons, isSuiteRunningEv, htail2,
        checkChildren_no_suiteRunning]
  · rw [if_neg hid]
    by_cases het : errTotal r = true
    · rw [if_pos het]
      refine ⟨rfl, ?_⟩
      simp [List.filter_append, List.filter_cons, isSuiteRunningEv, htail2,
        map_testFailed_no_suiteRunning]
    · rw [if_neg het]
      cases hfn : findNode tree id with
      | none =>
        dsimp only
        refine ⟨rfl, ?_⟩
        simp [List.filter_append, List.filter_cons, isSuiteRunningEv, htail2]
      | some node =>
        cases node with
        | test ti tl tf tn =>
          dsimp only
          refine ⟨rfl, ?_⟩
          simp [List.filter_append, List.filter_cons, isSuiteRunningEv, htail2,
            checkTestResult_no_suiteRunning]
        | suite si sl sf scs =>
          dsimp only
          refine ⟨rfl, ?_⟩
          simp [List.filter_append, List.filter_cons, isSuiteRunningEv, htail2]

theorem runSuitesList_filter (env : Env) (tree : TestNode) :
    ∀ ids : List String,
      ids.all (fun id => ((findSuite tree id).map fileSuite).getD true) = true →
      (runSuitesList env tree ids).2 = true
      ∧ (runSuitesList env tree ids).1.filter isSuiteRunningEv
          = ids.filterMap (fun id => (findSuite tree id).map (fun s => Ev.suiteRunning s.id)) := by
  intro ids
  induction ids with
  | nil => intro _; exact ⟨rfl, rfl⟩
  | cons id rest ih =>
    intro h
    have hpair : ((findSuite tree id).map fileSuite).getD true = true
        ∧ rest.all (fun id => ((findSuite tree id).map fileSuite).getD true) = true := by
      simpa using h
    obtain ⟨hok2, hfil2⟩ := ih hpair.2
    cases hfs : findSuite tree id with
    | none =>
      have hnone : runSuiteId env tree id = ([], true) := by
        unfold runSuiteId
        rw [hfs]
      unfold runSuitesList
      rw [hnone]
      dsimp only
      refine ⟨hok2, ?_⟩
      simp [List.filterMap_cons, hfs, hfil2]
    | some s =>
      have hfsu : fileSuite s = true := by
        have h1 := hpair.1
        rw [hfs] at h1
        simpa using h1
      have hsu : s.isSuite = true := fileSuite_isSuite s hfsu
      obtain ⟨f, hf⟩ := fileSuite_file s hfsu
      obtain ⟨hok1, hfil1⟩ := runSuiteId_resolved env tree id s f hfs hsu hf
      rcases hp : runSuiteId env tree id with ⟨evs1, ok1⟩
      rw [hp] at hok1 hfil1
      dsimp only at hok1 hfil1
      subst hok1
      unfold runSuitesList
      rw [hp]
      dsimp only
      refine ⟨hok2, ?_⟩
      simp [List.filter_append, hfil1, hfil2, List.filterMap_cons, hfs]

theorem runRootLoop_filter (env : Env) (tree : TestNode) :
    ∀ cs : List TestNode,
      (∀ c ∈ cs, fileSuite c = true ∧ findSuite tree c.id = some c) →
      (runRootLoop env tree cs).2 = true
      ∧ (runRootLoop env tree cs).1.filter isSuiteRunningEv
          = cs.map (fun c => Ev.suiteRunning c.id) := by
  intro cs
  induction cs with
  | nil => intro _; exact ⟨rfl, rfl⟩
  | cons c rest ih =>
    intro h
    obtain ⟨hcf, hcfind⟩ := h c (by simp)
    obtain ⟨hrestOk, hrestFil⟩ := ih (fun x hx => h x (by simp [hx]))
    have hcs : c.isSuite = true := fileSuite_isSuite c hcf
    have hsl := runSuitesList_filter env tree [c.id] (by simp [hcfind, hcf])
    rcases hp : runSuitesList env tree [c.id] with ⟨evs1, ok1⟩
    rw [hp] at hsl
    dsimp only at hsl
    obtain ⟨hok1, hfil1⟩ := hsl
    subst hok1
    unfold runRootLoop
    rw [if_pos hcs, hp]
    dsimp only
    refine ⟨hrestOk, ?_⟩
    rw [List.filter_append, hfil1, hrestFil]
    simp [List.filterMap_cons, hcfind]

theorem run_filter_suiteRunning (env : Env) (tree : TestNode) (tests : List String) :
    (run env tree tests).filter isSuiteRunningEv
      = (if tests.head? = some "root" then runRootLoop env tree tree.children
         else runSuitesList env tree tests).1.filter isSuiteRunningEv := by
  unfold run
  dsimp only
  simp [List.filter_append, List.filter_cons, isSuiteRunningEv, createFolders, runMake,
    apply_ite (List.filter isSuiteRunningEv)]

/-- Claim C6: a request whose first element is `root` executes each
top-level suite of the current tree exactly once, in children order —
witnessed by the sequence of suite-running events — while any other
request resolves its ids verbatim in request order, one suite execution
per id that resolves.  The hypotheses are the tree shape `loadTests`
guarantees: top-level children are file suites and node ids are unique. -/
theorem run_dispatch (env : Env) :
    (∀ (rid rl : String) (rf : Option String) (cs : List TestNode) (tests : List String),
        cs.all fileSuite = true → (allIdsList cs).Nodup →
        tests.head? = some "root" →
        (run env (.suite rid rl rf cs) tests).filter isSuiteRunningEv
          = cs.map (fun c => Ev.suiteRunning c.id))
  ∧ (∀ (tree : TestNode) (tests : List String),
        tests.head? ≠ some "root" →
        tests.all (fun id => ((findSuite tree id).map fileSuite).getD true) = true →
        (run env tree tests).filter isSuiteRunningEv
          = tests.filterMap (fun id => (findSuite tree id).map (fun s => Ev.suiteRunning s.id))) := by
  constructor
  · intro rid rl rf cs tests hall hnd hhead
    rw [run_filter_suiteRunning, if_pos hhead]
    have hchild : (TestNode.suite rid rl rf cs).children = cs := rfl
    rw [hchild]
    refine (runRootLoop_filter env (.suite rid rl rf cs) cs ?_).2
    intro c hc
    have hcf : fileSuite c = true := by
      have := List.all_eq_true.mp hall c hc
      simpa using this
    refine ⟨hcf, ?_⟩
    have hru : findSuite (.suite rid rl rf cs) c.id
        = findSuiteIn (.suite rid rl rf cs) cs c.id := rfl
    rw [hru]
    exact findSuiteIn_mem _ cs c hall hnd hc
  · intro tree tests hhead hall
    rw [run_filter_suiteRunning, if_neg hhead]
    exact (runSuitesList_filter env tree tests hall).2

/-- Witness for C6 at a two-suite tree: the root request runs both
suites in order; a test-level request runs the owning suite once. -/
theorem run_dispatch_witness :
    ([suiteA, suiteB].all fileSuite = true)
  ∧ (allIdsList [suiteA, suiteB]).Nodup
  ∧ (run benignEnv tree6 ["root"]).filter isSuiteRunningEv
      = [Ev.suiteRunning "a.c", Ev.suiteRunning "b.c"]
  ∧ (run benignEnv tree6 ["a.c::t1"]).filter isSuiteRunningEv
      = [Ev.suiteRunning "a.c"] :=
  ⟨by decide, by decide,
    (run_dispatch benignEnv).1 "root" "Unity" none [suiteA, suiteB] ["root"]
      (by decide) (by decide) rfl,
    (run_dispatch benignEnv).2 tree6 ["a.c::t1"] (by decide) (by decide)⟩

end UnityAdapter
